import Mathlib

/-!
Verification development for the kiro.rs gateway.

This file gives a shallow embedding, in Lean 4, of the parts of the
repository that the checked claims talk about:

  - the token usage ledger (src/token_usage.rs),
  - the API key store (src/api_key_store.rs),
  - the sync client retry wrapper (src/sync/client.rs),
  - the sync manager pull step (src/sync/manager.rs),
  - the socket reconnect backoff loop (src/sync/socketio_client.rs),
  - the context-usage token derivation (src/user_api/handlers.rs).

Machine integers (u64, i32, i64) are modelled as Nat and Int: all the
embedded operations either only increment counters far below the wrap
point or compare identifiers, so wrap-around is irrelevant to every
statement proved here.  Rust String values are modelled as Lean String
(or as List Char where the code manipulates raw bytes of ASCII data).
-/

namespace KiroSpec

/-! ### Decimal rendering of unsigned integers

Rust renders map keys with `u64::to_string()` (plain decimal).  The
fuel-indexed writer below is that decimal writer; the value function
gives its injectivity, which the ledger theorems need in order to turn
facts about string-keyed maps into facts about numeric ids. -/

/-- Decimal digits of `n`, most significant first; `fuel` bounds the recursion. -/
def natKeyAux : Nat → Nat → List Char
  | 0, _ => []
  | fuel + 1, n =>
    if n < 10 then [Nat.digitChar n]
    else natKeyAux fuel (n / 10) ++ [Nat.digitChar (n % 10)]

/-- Decimal string of `n`, as produced by `u64::to_string()` in the source. -/
def natKey (n : Nat) : String := ⟨natKeyAux (n + 1) n⟩

/-- Numeric value of one decimal digit character. -/
def charVal (c : Char) : Nat := c.toNat - 48

/-- Value of a digit string, most significant digit first. -/
def digitsVal (l : List Char) : Nat := l.foldl (fun a c => 10 * a + charVal c) 0

theorem digitsVal_append_singleton (l : List Char) (c : Char) :
    digitsVal (l ++ [c]) = 10 * digitsVal l + charVal c := by
  simp [digitsVal, List.foldl_append]

theorem charVal_digitChar : ∀ d, d < 10 → charVal (Nat.digitChar d) = d := by decide

theorem digitsVal_natKeyAux : ∀ fuel n, n < 10 ^ fuel → digitsVal (natKeyAux fuel n) = n := by
  intro fuel
  induction fuel with
  | zero =>
    intro n hn
    interval_cases n
    simp [natKeyAux, digitsVal]
  | succ fuel ih =>
    intro n hn
    by_cases h10 : n < 10
    · simp [natKeyAux, h10, digitsVal, charVal_digitChar n h10]
    · have hdiv : n / 10 < 10 ^ fuel := by
        rw [Nat.div_lt_iff_lt_mul (by norm_num)]
        calc n < 10 ^ (fuel + 1) := hn
        _ = 10 ^ fuel * 10 := by ring
      have := ih (n / 10) hdiv
      simp only [natKeyAux, h10, if_false, digitsVal_append_singleton, this,
        charVal_digitChar (n % 10) (Nat.mod_lt n (by norm_num))]
      omega

theorem digitsVal_natKey (n : Nat) : digitsVal (natKey n).data = n := by
  have hlt : n < 10 ^ (n + 1) := by
    calc n < 10 ^ n := Nat.lt_pow_self (by norm_num) n
    _ ≤ 10 ^ (n + 1) := Nat.pow_le_pow_right (by norm_num) (Nat.le_succ n)
  simpa [natKey] using digitsVal_natKeyAux (n + 1) n hlt

theorem natKey_injective : Function.Injective natKey := by
  intro a b h
  have : digitsVal (natKey a).data = digitsVal (natKey b).data := by rw [h]
  rwa [digitsVal_natKey, digitsVal_natKey] at this

theorem natKey_inj_iff {a b : Nat} : natKey a = natKey b ↔ a = b :=
  ⟨fun h => natKey_injective h, fun h => by rw [h]⟩

/-! ### Byte-wise string comparison

Rust orders `String` values byte-wise; on UTF-8 data this coincides
with lexicographic comparison of scalar values.  The ledger timeseries
code sorts bucket labels with this order. -/

/-- Lexicographic comparison of character lists by scalar value. -/
def lexLe : List Char → List Char → Bool
  | [], _ => true
  | _ :: _, [] => false
  | a :: as, b :: bs =>
    if a.toNat < b.toNat then true
    else if b.toNat < a.toNat then false
    else lexLe as bs

/-- String comparison as Rust `str::cmp` orders the sorted timeseries keys. -/
def strLe (a b : String) : Bool := lexLe a.data b.data

theorem lexLe_total : ∀ as bs : List Char, lexLe as bs = true ∨ lexLe bs as = true := by
  intro as
  induction as with
  | nil => intro bs; left; cases bs <;> rfl
  | cons a as ih =>
    intro bs
    cases bs with
    | nil => right; rfl
    | cons b bs =>
      rcases Nat.lt_trichotomy a.toNat b.toNat with h | h | h
      · left; simp [lexLe, h]
      · rcases ih bs with h2 | h2
        · left; simp [lexLe, h, h2]
        · right; simp [lexLe, h, h2]
      · right; simp [lexLe, h]

theorem lexLe_trans :
    ∀ as bs cs : List Char, lexLe as bs = true → lexLe bs cs = true → lexLe as cs = true := by
  intro as
  induction as with
  | nil => intro bs cs _ _; cases cs <;> rfl
  | cons a as ih =>
    intro bs cs hab hbc
    cases bs with
    | nil => simp [lexLe] at hab
    | cons b bs =>
      cases cs with
      | nil => simp [lexLe] at hbc
      | cons c cs =>
        simp only [lexLe] at hab hbc ⊢
        by_cases hac : a.toNat < c.toNat
        · simp [hac]
        · by_cases hca : c.toNat < a.toNat
          · exfalso
            by_cases h1 : a.toNat < b.toNat
            · by_cases h2 : b.toNat < c.toNat
              · omega
              · by_cases h3 : c.toNat < b.toNat
                · simp [h2, h3] at hbc
                · omega
            · by_cases h4 : b.toNat < a.toNat
              · simp [h1, h4] at hab
              · by_cases h2 : b.toNat < c.toNat
                · omega
                · by_cases h3 : c.toNat < b.toNat
                  · simp [h2, h3] at hbc
                  · omega
          · have hac2 : ¬ c.toNat < a.toNat := hca
            simp only [hac, if_false, hac2]
            by_cases h1 : a.toNat < b.toNat
            · exfalso
              by_cases h2 : b.toNat < c.toNat
              · omega
              · by_cases h3 : c.toNat < b.toNat
                · simp [h2, h3] at hbc
                · omega
            · by_cases h4 : b.toNat < a.toNat
              · simp [h1, h4] at hab
              · by_cases h2 : b.toNat < c.toNat
                · omega
                · by_cases h3 : c.toNat < b.toNat
                  · simp [h2, h3] at hbc
                  · simp [h1, h4] at hab
                    simp [h2, h3] at hbc
                    exact ih bs cs hab hbc

/-- Descending order on bucket labels, as `sort_by(|a, b| b.time_key.cmp(&a.time_key))`. -/
def keyGe (a b : String) : Prop := strLe b a = true

instance keyGe.decRel : DecidableRel keyGe := fun a b =>
  inferInstanceAs (Decidable (strLe b a = true))

instance keyGe.isTotal : IsTotal String keyGe :=
  ⟨fun a b => (lexLe_total b.data a.data).imp (fun h => h) (fun h => h)⟩

instance keyGe.isTrans : IsTrans String keyGe :=
  ⟨fun _ b _ hab hbc => lexLe_trans _ b.data _ hbc hab⟩

/-! ### UTC datetimes

The ledger stores RFC3339 timestamps and parses them back with chrono;
a parsed UTC instant is modelled by its civil fields.  The conversions
between civil dates and day numbers (days since 1970-01-01) follow the
standard proleptic-Gregorian algorithms that chrono implements; Lean
Int division is floor division for positive divisors, which is what the
algorithms need. -/

/-- A parsed UTC datetime: what chrono yields after `with_timezone(&Utc)`. -/
structure DateTime where
  year : Int
  month : Int
  day : Int
  hour : Nat
  minute : Nat
  second : Nat
deriving DecidableEq, Repr

/-- Day number (days since 1970-01-01) of a civil date. -/
def daysFromCivil (y m d : Int) : Int :=
  let y2 := if m ≤ 2 then y - 1 else y
  let era := y2 / 400
  let yoe := y2 - era * 400
  let mp := (m + 9) % 12
  let doy := (153 * mp + 2) / 5 + d - 1
  let doe := yoe * 365 + yoe / 4 - yoe / 100 + doy
  era * 146097 + doe - 719468

/-- Civil date (year, month, day) of a day number. -/
def civilFromDays (z0 : Int) : Int × Int × Int :=
  let z := z0 + 719468
  let era := z / 146097
  let doe := z - era * 146097
  let yoe := (doe - doe / 1460 + doe / 36524 - doe / 146096) / 365
  let y := yoe + era * 400
  let doy := doe - (365 * yoe + yoe / 4 - yoe / 100)
  let mp := (5 * doy + 2) / 153
  let d := doy - (153 * mp + 2) / 5 + 1
  let m := if mp < 10 then mp + 3 else mp - 9
  (if m ≤ 2 then y + 1 else y, m, d)

/-- Day number of the date part of a datetime. -/
def DateTime.toDays (dt : DateTime) : Int := daysFromCivil dt.year dt.month dt.day

/-- Weekday as days from Monday (Mon = 0 .. Sun = 6), as
`Datelike::weekday().num_days_from_monday()`; 1970-01-01 was a Thursday. -/
def numDaysFromMonday (n : Int) : Int := (n + 3) % 7

/-- Day number of the Monday of the week containing day `n`, the day-number
level content of `dt - Duration::days(days_from_monday)`. -/
def weekBucketDays (n : Int) : Int := n - numDaysFromMonday n

/-- Zero-padded two-digit decimal. -/
def pad2 (n : Nat) : String := if n < 10 then "0" ++ natKey n else natKey n

/-- Zero-padded four-digit decimal, the `%Y` rendering for common years. -/
def pad4 (n : Nat) : String :=
  if n < 10 then "000" ++ natKey n
  else if n < 100 then "00" ++ natKey n
  else if n < 1000 then "0" ++ natKey n
  else natKey n

/-- Rendering of `%Y-%m-%dT00:00:00Z` for a civil date. -/
def dayLabel (y m d : Int) : String :=
  pad4 y.toNat ++ "-" ++ pad2 m.toNat ++ "-" ++ pad2 d.toNat ++ "T00:00:00Z"

/-- Rendering of `%Y-%m-%dT%H:00:00Z` for a datetime. -/
def hourLabel (dt : DateTime) : String :=
  pad4 dt.year.toNat ++ "-" ++ pad2 dt.month.toNat ++ "-" ++ pad2 dt.day.toNat ++
    "T" ++ pad2 dt.hour ++ ":00:00Z"

/-! ### Token usage ledger (src/token_usage.rs)

`TokenUsageTracker` keeps `PersistedStats` behind a mutex; the mutex,
the debounced persistence and the `Instant` bookkeeping are outside the
claims, so the embedding models the protected `PersistedStats` value
and the state transition performed by one `record` call.  Timestamps
are stored already parsed (`none` standing for a string chrono cannot
parse); `Utc::now()` becomes an explicit argument of the call.  HashMap
contents are modelled as association lists keyed by the same strings
the source uses; lookup order never matters because the source only
reads maps through point lookups or value aggregation after sorting. -/

/-- Per-group totals, struct `GroupTokenStats`. -/
structure GroupTokenStats where
  inputTokens : Int
  outputTokens : Int
  requests : Nat
deriving DecidableEq, Repr

/-- The `Default` value of `GroupTokenStats`. -/
def GroupTokenStats.zero : GroupTokenStats := ⟨0, 0, 0⟩

/-- One ring buffer entry, struct `TokenUsageRecord`. -/
structure TokenUsageRecord where
  timestamp : Option DateTime
  model : String
  credentialId : Nat
  apiKeyId : Option Nat
  inputTokens : Int
  outputTokens : Int
  clientIp : Option String
  userInput : Option String
deriving DecidableEq, Repr

/-- A `HashMap<String, GroupTokenStats>` value. -/
abbrev StatsMap := List (String × GroupTokenStats)

/-- The `entry(k).or_default()` update performed by `record`: add `i`/`o`
and one request to the entry at `k`, inserting a default entry first when
absent. -/
def mapBump (m : StatsMap) (k : String) (i o : Int) : StatsMap :=
  match m with
  | [] => [(k, ⟨i, o, 1⟩)]
  | (k2, v) :: rest =>
    if k2 = k then (k2, ⟨v.inputTokens + i, v.outputTokens + o, v.requests + 1⟩) :: rest
    else (k2, v) :: mapBump rest k i o

/-- Map lookup defaulting to the zero stats, as `get(..).cloned().unwrap_or_default()`. -/
def lookupStats (m : StatsMap) (k : String) : GroupTokenStats := (m.lookup k).getD .zero

/-- The mutex-protected state, struct `PersistedStats`. -/
structure PersistedStats where
  totalInputTokens : Int
  totalOutputTokens : Int
  totalRequests : Nat
  byCredential : StatsMap
  byModel : StatsMap
  byApiKey : StatsMap
  recentRequests : List TokenUsageRecord
deriving DecidableEq, Repr

/-- The `Default` state a fresh tracker starts from. -/
def initialStats : PersistedStats := ⟨0, 0, 0, [], [], [], []⟩

/-- Ring buffer capacity `MAX_RECENT_REQUESTS`. -/
def MAX_RECENT_REQUESTS : Nat := 10000

/-- The eviction loop after a push: pop from the front while over capacity.
A single drop computes the same list as the `while` loop. -/
def capRing (l : List TokenUsageRecord) : List TokenUsageRecord :=
  l.drop (l.length - MAX_RECENT_REQUESTS)

/-- Arguments of one `TokenUsageTracker::record` call; `now` is the value
`Utc::now()` takes during the call. -/
structure RecordCall where
  now : DateTime
  model : String
  credentialId : Nat
  inputTokens : Int
  outputTokens : Int
  apiKeyId : Option Nat
  clientIp : Option String
  userInput : Option String
deriving DecidableEq, Repr

/-- State transition of `TokenUsageTracker::record` on the protected stats. -/
def record (st : PersistedStats) (c : RecordCall) : PersistedStats :=
  let r : TokenUsageRecord :=
    ⟨some c.now, c.model, c.credentialId, c.apiKeyId, c.inputTokens, c.outputTokens,
      c.clientIp, c.userInput⟩
  { totalInputTokens := st.totalInputTokens + c.inputTokens
    totalOutputTokens := st.totalOutputTokens + c.outputTokens
    totalRequests := st.totalRequests + 1
    byCredential := mapBump st.byCredential (natKey c.credentialId) c.inputTokens c.outputTokens
    byModel := mapBump st.byModel c.model c.inputTokens c.outputTokens
    byApiKey :=
      match c.apiKeyId with
      | some keyId => mapBump st.byApiKey (natKey keyId) c.inputTokens c.outputTokens
      | none => st.byApiKey
    recentRequests := capRing (st.recentRequests ++ [r]) }

/-- State reached from a fresh tracker by a sequence of `record` calls. -/
def applyCalls (calls : List RecordCall) : PersistedStats := calls.foldl record initialStats

/-- Response shape `TokenUsageResponse`. -/
structure TokenUsageResponse where
  totalInputTokens : Int
  totalOutputTokens : Int
  totalRequests : Nat
  byCredential : StatsMap
  byModel : StatsMap
  byApiKey : StatsMap
  recentRequests : List TokenUsageRecord
deriving DecidableEq, Repr

/-- `TokenUsageTracker::get_stats_for_api_key`: accurate totals from the
cumulative `by_api_key` entry, per-model and per-credential groups
recomputed from the records of that key still in the ring buffer, and an
empty `by_api_key` map in the response. -/
def get_stats_for_api_key (st : PersistedStats) (apiKeyId : Nat) : TokenUsageResponse :=
  let keyStats := lookupStats st.byApiKey (natKey apiKeyId)
  let recent := st.recentRequests.filter (fun r => r.apiKeyId == some apiKeyId)
  let byModel := recent.foldl (fun m r => mapBump m r.model r.inputTokens r.outputTokens) []
  let byCredential :=
    recent.foldl (fun m r => mapBump m (natKey r.credentialId) r.inputTokens r.outputTokens) []
  ⟨keyStats.inputTokens, keyStats.outputTokens, keyStats.requests,
    byCredential, byModel, [], recent⟩

/-- Enum `TimeGranularity`. -/
inductive TimeGranularity where
  | hour
  | day
  | week
deriving DecidableEq, Repr

/-- The `as_str` rendering of a granularity. -/
def granName : TimeGranularity → String
  | .hour => "hour"
  | .day => "day"
  | .week => "week"

/-- Series length limits: last 48 hours, 30 days, 12 weeks. -/
def granLimit : TimeGranularity → Nat
  | .hour => 48
  | .day => 30
  | .week => 12

/-- Bucket label of one record timestamp: hour and day truncate the
format, week formats the Monday obtained by subtracting
`num_days_from_monday` days. -/
def timeKey (g : TimeGranularity) (dt : DateTime) : String :=
  match g with
  | .hour => hourLabel dt
  | .day => dayLabel dt.year dt.month dt.day
  | .week =>
    let md := civilFromDays (weekBucketDays dt.toDays)
    dayLabel md.1 md.2.1 md.2.2

/-- One element of the returned series, struct `TimeRangeStats`. -/
structure TimeRangeStats where
  timeKey : String
  inputTokens : Int
  outputTokens : Int
  requests : Nat
deriving DecidableEq, Repr

/-- Response shape `TokenUsageTimeSeriesResponse`. -/
structure TokenUsageTimeSeriesResponse where
  granularity : String
  data : List TimeRangeStats
  totalInputTokens : Int
  totalOutputTokens : Int
  totalRequests : Nat
deriving DecidableEq, Repr

/-- Ring entries that parse, paired with their bucket label. -/
def keyedRecords (g : TimeGranularity) (recs : List TokenUsageRecord) :
    List (String × TokenUsageRecord) :=
  recs.filterMap (fun r => r.timestamp.map (fun dt => (timeKey g dt, r)))

/-- Aggregate of one bucket: the entry the HashMap holds for label `k`
after the accumulation loop. -/
def bucketTotals (pairs : List (String × TokenUsageRecord)) (k : String) : TimeRangeStats :=
  let rs := (pairs.filter (fun p => p.1 == k)).map Prod.snd
  ⟨k, (rs.map (·.inputTokens)).sum, (rs.map (·.outputTokens)).sum, rs.length⟩

/-- `TokenUsageTracker::get_timeseries_stats`: bucket the ring buffer,
sort buckets by label descending, truncate to the granularity limit and
total the surviving points. -/
def get_timeseries_stats (st : PersistedStats) (g : TimeGranularity) :
    TokenUsageTimeSeriesResponse :=
  let pairs := keyedRecords g st.recentRequests
  let keys := (pairs.map Prod.fst).dedup
  let sorted := List.insertionSort keyGe keys
  let data := (sorted.take (granLimit g)).map (bucketTotals pairs)
  ⟨granName g, data, (data.map (·.inputTokens)).sum, (data.map (·.outputTokens)).sum,
    (data.map (·.requests)).sum⟩

/-! ### Ledger lemmas -/

theorem lookupStats_nil (k : String) : lookupStats [] k = GroupTokenStats.zero := rfl

theorem lookupStats_mapBump_self (m : StatsMap) (k : String) (i o : Int) :
    lookupStats (mapBump m k i o) k =
      ⟨(lookupStats m k).inputTokens + i, (lookupStats m k).outputTokens + o,
        (lookupStats m k).requests + 1⟩ := by
  induction m with
  | nil => simp [mapBump, lookupStats, List.lookup, GroupTokenStats.zero]
  | cons hd tl ih =>
    obtain ⟨k2, v⟩ := hd
    by_cases h : k2 = k
    · subst h
      simp [mapBump, lookupStats, List.lookup]
    · have hne : (k == k2) = false := by
        simp [beq_iff_eq]
        intro he
        exact h he.symm
      simp [mapBump, h, lookupStats, List.lookup, hne] at ih ⊢
      exact ih

theorem lookupStats_mapBump_ne (m : StatsMap) (k k2 : String) (i o : Int) (h : k2 ≠ k) :
    lookupStats (mapBump m k i o) k2 = lookupStats m k2 := by
  induction m with
  | nil =>
    have hne : (k2 == k) = false := by simp [beq_iff_eq, h]
    simp [mapBump, lookupStats, List.lookup, hne]
  | cons hd tl ih =>
    obtain ⟨k3, v⟩ := hd
    by_cases h3 : k3 = k
    · subst h3
      have hne : (k2 == k3) = false := by simp [beq_iff_eq, h]
      simp [mapBump, lookupStats, List.lookup, hne]
    · by_cases h23 : k2 = k3
      · subst h23
        simp [mapBump, h3, lookupStats, List.lookup]
      · have hne : (k2 == k3) = false := by simp [beq_iff_eq, h23]
        simp [mapBump, h3, lookupStats, List.lookup, hne] at ih ⊢
        exact ih

/-- Effect of a whole call sequence on one `by_api_key` entry, relative to
an arbitrary starting state. -/
theorem lookupStats_byApiKey_fold (calls : List RecordCall) :
    ∀ (st : PersistedStats) (id : Nat),
      lookupStats (calls.foldl record st).byApiKey (natKey id) =
        ⟨(lookupStats st.byApiKey (natKey id)).inputTokens +
            ((calls.filter (fun c => c.apiKeyId == some id)).map (·.inputTokens)).sum,
          (lookupStats st.byApiKey (natKey id)).outputTokens +
            ((calls.filter (fun c => c.apiKeyId == some id)).map (·.outputTokens)).sum,
          (lookupStats st.byApiKey (natKey id)).requests +
            (calls.filter (fun c => c.apiKeyId == some id)).length⟩ := by
  induction calls with
  | nil => intro st id; simp
  | cons c cs ih =>
    intro st id
    rw [List.foldl_cons, ih]
    match hk : c.apiKeyId with
    | none =>
      have hbk : (record st c).byApiKey = st.byApiKey := by simp [record, hk]
      have hpred : (c.apiKeyId == some id) = false := by simp [hk]
      simp [hbk, List.filter_cons, hpred]
    | some j =>
      have hbk : (record st c).byApiKey =
          mapBump st.byApiKey (natKey j) c.inputTokens c.outputTokens := by
        simp [record, hk]
      by_cases hj : j = id
      · subst hj
        have hpred : (c.apiKeyId == some j) = true := by simp [hk]
        rw [hbk, lookupStats_mapBump_self]
        simp [List.filter_cons, hpred]
        constructor
        · ring
        constructor
        · ring
        · omega
      · have hkeys : natKey id ≠ natKey j := fun he => hj (natKey_injective he).symm
        have hpred : (c.apiKeyId == some id) = false := by simp [hk, hj]
        rw [hbk, lookupStats_mapBump_ne _ _ _ _ _ hkeys]
        simp [List.filter_cons, hpred]

theorem record_ring_le (st : PersistedStats) (c : RecordCall) :
    (record st c).recentRequests.length ≤ MAX_RECENT_REQUESTS := by
  simp only [record]
  rw [capRing, List.length_drop]
  omega

theorem foldl_record_ring_le (calls : List RecordCall) :
    ∀ st : PersistedStats, st.recentRequests.length ≤ MAX_RECENT_REQUESTS →
      (calls.foldl record st).recentRequests.length ≤ MAX_RECENT_REQUESTS := by
  induction calls with
  | nil => intro st h; simpa using h
  | cons c cs ih =>
    intro st _
    rw [List.foldl_cons]
    exact ih (record st c) (record_ring_le st c)

/-- Concrete call used to exhibit eviction effects: api key 1, model m,
credential 7, one input token and two output tokens. -/
def c10call : RecordCall := ⟨⟨2026, 2, 15, 10, 40, 31⟩, "m", 7, 1, 2, some 1, none, none⟩

/-- Ring entry produced by `c10call`. -/
def c10rec : TokenUsageRecord :=
  ⟨some ⟨2026, 2, 15, 10, 40, 31⟩, "m", 7, some 1, 1, 2, none, none⟩

theorem applyCalls_replicate_ring (n : Nat) :
    (applyCalls (List.replicate n c10call)).recentRequests =
      List.replicate (min n MAX_RECENT_REQUESTS) c10rec := by
  induction n with
  | zero => simp [applyCalls, initialStats]
  | succ n ih =>
    rw [applyCalls] at ih ⊢
    rw [List.replicate_succ', List.foldl_append, List.foldl_cons, List.foldl_nil]
    have hring : (record (List.foldl record initialStats (List.replicate n c10call))
        c10call).recentRequests =
        capRing ((List.foldl record initialStats
          (List.replicate n c10call)).recentRequests ++ [c10rec]) := by
      simp only [record, c10call, c10rec]
    rw [hring, ih, ← List.replicate_succ', capRing, List.length_replicate,
      List.drop_replicate]
    have harith : min n MAX_RECENT_REQUESTS + 1 -
        (min n MAX_RECENT_REQUESTS + 1 - MAX_RECENT_REQUESTS) =
        min (n + 1) MAX_RECENT_REQUESTS := by omega
    rw [harith]

theorem byModel_fold_replicate (k : Nat) :
    (List.replicate (k + 1) c10rec).foldl
        (fun m r => mapBump m r.model r.inputTokens r.outputTokens) [] =
      [("m", ⟨(k : Int) + 1, 2 * k + 2, k + 1⟩)] := by
  induction k with
  | zero => simp [mapBump, c10rec]
  | succ k ih =>
    rw [List.replicate_succ', List.foldl_append, List.foldl_cons, List.foldl_nil, ih]
    simp [mapBump, c10rec]
    ring

/-- Totals of `get_stats_for_api_key` over a whole call sequence; shared
between the ledger claims. -/
theorem stats_for_api_key_totals (calls : List RecordCall) (id : Nat) :
    (get_stats_for_api_key (applyCalls calls) id).totalInputTokens =
        ((calls.filter (fun c => c.apiKeyId == some id)).map (·.inputTokens)).sum
    ∧ (get_stats_for_api_key (applyCalls calls) id).totalOutputTokens =
        ((calls.filter (fun c => c.apiKeyId == some id)).map (·.outputTokens)).sum
    ∧ (get_stats_for_api_key (applyCalls calls) id).totalRequests =
        (calls.filter (fun c => c.apiKeyId == some id)).length := by
  have h := lookupStats_byApiKey_fold calls initialStats id
  have hzero : lookupStats initialStats.byApiKey (natKey id) = GroupTokenStats.zero := rfl
  rw [hzero] at h
  simp only [GroupTokenStats.zero] at h
  refine ⟨?_, ?_, ?_⟩ <;> simp [get_stats_for_api_key, applyCalls, lookupStats] at h ⊢ <;>
    simp [h]

/-- C1.  From a fresh tracker, after any sequence of `record` calls the
response of `get_stats_for_api_key id` reports input, output and request
totals equal to the sums over exactly the calls whose `api_key_id` was
`Some(id)`; the totals come from the cumulative `by_api_key` entry, so ring
buffer eviction never affects them. -/
theorem c1_stats_for_api_key_totals (calls : List RecordCall) (id : Nat) :
    (get_stats_for_api_key (applyCalls calls) id).totalInputTokens =
        ((calls.filter (fun c => c.apiKeyId == some id)).map (·.inputTokens)).sum
    ∧ (get_stats_for_api_key (applyCalls calls) id).totalOutputTokens =
        ((calls.filter (fun c => c.apiKeyId == some id)).map (·.outputTokens)).sum
    ∧ (get_stats_for_api_key (applyCalls calls) id).totalRequests =
        (calls.filter (fun c => c.apiKeyId == some id)).length :=
  stats_for_api_key_totals calls id

/-- Proof body of the C10 statement, kept separate so the witness can
name the theorem itself. -/
theorem c10_parts :
    (∀ (st : PersistedStats) (id : Nat),
        (get_stats_for_api_key st id).byApiKey = ([] : StatsMap))
    ∧ (∀ (st st2 : PersistedStats) (id : Nat),
        st.recentRequests.filter (fun r => r.apiKeyId == some id) =
          st2.recentRequests.filter (fun r => r.apiKeyId == some id) →
        (get_stats_for_api_key st id).byModel = (get_stats_for_api_key st2 id).byModel ∧
        (get_stats_for_api_key st id).byCredential =
          (get_stats_for_api_key st2 id).byCredential)
    ∧ (∀ calls : List RecordCall,
        (applyCalls calls).recentRequests.length ≤ MAX_RECENT_REQUESTS)
    ∧ (∃ (calls : List RecordCall) (id : Nat),
        ((get_stats_for_api_key (applyCalls calls) id).byModel.map
            (fun e => e.2.requests)).sum <
          (get_stats_for_api_key (applyCalls calls) id).totalRequests) := by
  refine ⟨fun st id => rfl, ?_, ?_, ?_⟩
  · intro st st2 id h
    constructor <;> simp [get_stats_for_api_key, h]
  · intro calls
    exact foldl_record_ring_le calls initialStats (by simp [initialStats])
  · refine ⟨List.replicate 10001 c10call, 1, ?_⟩
    have hpredCall : (c10call.apiKeyId == some 1) = true := by simp [c10call]
    have hpredRec : (c10rec.apiKeyId == some 1) = true := by simp [c10rec]
    have htot : (get_stats_for_api_key (applyCalls (List.replicate 10001 c10call))
        1).totalRequests = 10001 := by
      have h := (stats_for_api_key_totals (List.replicate 10001 c10call) 1).2.2
      rw [h, List.filter_replicate, if_pos hpredCall, List.length_replicate]
    have hring := applyCalls_replicate_ring 10001
    have hmin : min 10001 MAX_RECENT_REQUESTS = 10000 := by
      rw [MAX_RECENT_REQUESTS]
      omega
    rw [hmin] at hring
    have h9999 : (10000 : Nat) = 9999 + 1 := by norm_num
    have hbm : (get_stats_for_api_key (applyCalls (List.replicate 10001 c10call))
        1).byModel = [("m", ⟨(9999 : Int) + 1, 2 * 9999 + 2, 9999 + 1⟩)] := by
      simp only [get_stats_for_api_key]
      rw [hring, List.filter_replicate, if_pos hpredRec, h9999, byModel_fold_replicate]
      norm_num
    rw [htot, hbm]
    norm_num

/-- C10.  The per-model and per-credential maps of
`get_stats_for_api_key` are computed solely from the records of that key
still present in the ring buffer, whose length never exceeds 10000; the
returned `by_api_key` map is always empty; and once records of the key
have been evicted the per-model request counts can sum to strictly less
than the returned `total_requests`. -/
theorem c10_stats_for_api_key_ring_groups :
    (∀ (st : PersistedStats) (id : Nat),
        (get_stats_for_api_key st id).byApiKey = ([] : StatsMap))
    ∧ (∀ (st st2 : PersistedStats) (id : Nat),
        st.recentRequests.filter (fun r => r.apiKeyId == some id) =
          st2.recentRequests.filter (fun r => r.apiKeyId == some id) →
        (get_stats_for_api_key st id).byModel = (get_stats_for_api_key st2 id).byModel ∧
        (get_stats_for_api_key st id).byCredential =
          (get_stats_for_api_key st2 id).byCredential)
    ∧ (∀ calls : List RecordCall,
        (applyCalls calls).recentRequests.length ≤ MAX_RECENT_REQUESTS)
    ∧ (∃ (calls : List RecordCall) (id : Nat),
        ((get_stats_for_api_key (applyCalls calls) id).byModel.map
            (fun e => e.2.requests)).sum <
          (get_stats_for_api_key (applyCalls calls) id).totalRequests) := c10_parts

/-- Witness for C10: two concrete states whose rings hold the same
records of key 1 (the second also holds a keyless record) expose equal
recomputed group maps; instantiates the solely-from-the-ring clause. -/
theorem c10_stats_for_api_key_ring_groups_witness :
    (get_stats_for_api_key ⟨0, 0, 0, [], [], [], [c10rec]⟩ 1).byModel =
      (get_stats_for_api_key ⟨9, 9, 9, [], [], [],
        [c10rec, ⟨none, "x", 3, none, 4, 5, none, none⟩]⟩ 1).byModel
    ∧ (get_stats_for_api_key ⟨0, 0, 0, [], [], [], [c10rec]⟩ 1).byCredential =
      (get_stats_for_api_key ⟨9, 9, 9, [], [], [],
        [c10rec, ⟨none, "x", 3, none, 4, 5, none, none⟩]⟩ 1).byCredential :=
  c10_stats_for_api_key_ring_groups.2.1
    ⟨0, 0, 0, [], [], [], [c10rec]⟩
    ⟨9, 9, 9, [], [], [], [c10rec, ⟨none, "x", 3, none, 4, 5, none, none⟩]⟩
    1 (by rfl)

/-! ### Timeseries lemmas -/

theorem bucketTotals_timeKey (pairs : List (String × TokenUsageRecord)) (k : String) :
    (bucketTotals pairs k).timeKey = k := by
  simp only [bucketTotals]

theorem timeseries_data_keys (st : PersistedStats) (g : TimeGranularity) :
    (get_timeseries_stats st g).data.map (fun e => e.timeKey) =
      (List.insertionSort keyGe
        (((keyedRecords g st.recentRequests).map Prod.fst).dedup)).take (granLimit g) := by
  simp only [get_timeseries_stats, List.map_map]
  exact List.map_congr_left (fun k _ => bucketTotals_timeKey _ k) |>.trans (List.map_id _)

/-- C7.  Week-granularity bucketing truncates to the Monday of the ISO
week of the record timestamp: the bucket day is a Monday and the
timestamp falls within the following seven days; a record at
2026-02-15T10:40:31Z (a Sunday) is labelled 2026-02-09T00:00:00Z; and the
returned series is limited to the most recent 48 hour buckets, 30 day
buckets or 12 week buckets: its length is bounded, its labels descend,
and the bucket of every parsed record either appears in the series or
compares at or below every label kept. -/
theorem c7_week_bucket_and_series_limit :
    (∀ n : Int, numDaysFromMonday (weekBucketDays n) = 0 ∧
        weekBucketDays n ≤ n ∧ n < weekBucketDays n + 7)
    ∧ timeKey .week ⟨2026, 2, 15, 10, 40, 31⟩ = "2026-02-09T00:00:00Z"
    ∧ (∀ (st : PersistedStats) (g : TimeGranularity),
        (get_timeseries_stats st g).data.length ≤ granLimit g)
    ∧ (∀ (st : PersistedStats) (g : TimeGranularity),
        List.Pairwise (fun a b => keyGe a.timeKey b.timeKey) (get_timeseries_stats st g).data)
    ∧ (∀ (st : PersistedStats) (g : TimeGranularity) (r : TokenUsageRecord) (dt : DateTime),
        r ∈ st.recentRequests → r.timestamp = some dt →
        timeKey g dt ∈ (get_timeseries_stats st g).data.map (fun e => e.timeKey) ∨
        ∀ t ∈ (get_timeseries_stats st g).data.map (fun e => e.timeKey),
          strLe (timeKey g dt) t = true) := by
  refine ⟨?_, ?_, ?_, ?_, ?_⟩
  · intro n
    simp only [numDaysFromMonday, weekBucketDays]
    omega
  · decide
  · intro st g
    simp only [get_timeseries_stats]
    rw [List.length_map, List.length_take]
    exact Nat.min_le_left _ _
  · intro st g
    have hs : List.Pairwise keyGe (List.insertionSort keyGe
        (((keyedRecords g st.recentRequests).map Prod.fst).dedup)) :=
      List.sorted_insertionSort keyGe _
    have htake : List.Pairwise keyGe ((List.insertionSort keyGe
        (((keyedRecords g st.recentRequests).map Prod.fst).dedup)).take (granLimit g)) :=
      List.Pairwise.sublist (List.take_sublist _ _) hs
    simp only [get_timeseries_stats]
    exact htake.map (bucketTotals (keyedRecords g st.recentRequests))
      (fun a b hab => by rwa [bucketTotals_timeKey, bucketTotals_timeKey])
  · intro st g r dt hr hts
    have hpair : (timeKey g dt, r) ∈ keyedRecords g st.recentRequests := by
      simp only [keyedRecords, List.mem_filterMap]
      exact ⟨r, hr, by rw [hts]; rfl⟩
    have hkey : timeKey g dt ∈ ((keyedRecords g st.recentRequests).map Prod.fst).dedup := by
      rw [List.mem_dedup]
      exact List.mem_map.mpr ⟨(timeKey g dt, r), hpair, rfl⟩
    have hsortmem : timeKey g dt ∈ List.insertionSort keyGe
        (((keyedRecords g st.recentRequests).map Prod.fst).dedup) :=
      ((List.perm_insertionSort keyGe _).mem_iff).mpr hkey
    have hsplit := List.take_append_drop (granLimit g) (List.insertionSort keyGe
        (((keyedRecords g st.recentRequests).map Prod.fst).dedup))
    rw [← hsplit] at hsortmem
    rcases List.mem_append.mp hsortmem with hin | hin
    · left
      rw [timeseries_data_keys]
      exact hin
    · right
      intro t ht
      rw [timeseries_data_keys] at ht
      have hpw : List.Pairwise keyGe (List.insertionSort keyGe
          (((keyedRecords g st.recentRequests).map Prod.fst).dedup)) :=
        List.sorted_insertionSort keyGe _
      have h2 : List.Pairwise keyGe (((List.insertionSort keyGe
          (((keyedRecords g st.recentRequests).map Prod.fst).dedup)).take (granLimit g)) ++
          ((List.insertionSort keyGe
          (((keyedRecords g st.recentRequests).map Prod.fst).dedup)).drop (granLimit g))) := by
        rw [hsplit]
        exact hpw
      obtain ⟨-, -, hcross⟩ := List.pairwise_append.mp h2
      exact hcross t ht (timeKey g dt) hin

/-- Witness for C7: a ring buffer with one record at 2026-02-15T10:40:31Z,
queried at week granularity; the instantiated disjunct of the theorem. -/
theorem c7_week_bucket_and_series_limit_witness :
    timeKey .week ⟨2026, 2, 15, 10, 40, 31⟩ ∈
      ((get_timeseries_stats
        ⟨0, 0, 0, [], [], [],
          [⟨some ⟨2026, 2, 15, 10, 40, 31⟩, "m", 7, some 1, 1, 2, none, none⟩]⟩
        .week).data.map (fun e => e.timeKey)) ∨
    ∀ t ∈ ((get_timeseries_stats
        ⟨0, 0, 0, [], [], [],
          [⟨some ⟨2026, 2, 15, 10, 40, 31⟩, "m", 7, some 1, 1, 2, none, none⟩]⟩
        .week).data.map (fun e => e.timeKey)),
      strLe (timeKey .week ⟨2026, 2, 15, 10, 40, 31⟩) t = true :=
  c7_week_bucket_and_series_limit.2.2.2.2
    ⟨0, 0, 0, [], [], [],
      [⟨some ⟨2026, 2, 15, 10, 40, 31⟩, "m", 7, some 1, 1, 2, none, none⟩]⟩
    .week
    ⟨some ⟨2026, 2, 15, 10, 40, 31⟩, "m", 7, some 1, 1, 2, none, none⟩
    ⟨2026, 2, 15, 10, 40, 31⟩
    (List.mem_singleton.mpr rfl)
    rfl

/-! ### API key store (src/api_key_store.rs)

`ApiKeyStore` wraps a `PersistedApiKeys` value plus a file path; the
persistence side is outside the claims, so the embedding models the
in-memory value and its operations.  `common/auth.rs` is not among the
provided sources, so `constant_time_eq` is modelled from the spec. -/

/-- One stored key, struct `ApiKeyEntry`. -/
structure ApiKeyEntry where
  id : Nat
  key : String
  label : String
  readOnly : Bool
  allowedModels : Option (List String)
  disabled : Bool
  createdAt : String
deriving DecidableEq, Repr

/-- The authentication view handed to handlers, struct `ApiKeyInfo`. -/
structure ApiKeyInfo where
  id : Nat
  label : String
  readOnly : Bool
  allowedModels : Option (List String)
deriving DecidableEq, Repr

/-- The field names of struct `ApiKeyInfo`, in declaration order. -/
def apiKeyInfoFields : List String := ["id", "label", "read_only", "allowed_models"]

/-- The persisted store value, struct `PersistedApiKeys`. -/
structure PersistedApiKeys where
  nextId : Nat
  entries : List ApiKeyEntry
deriving DecidableEq, Repr

/-- Modelled from the spec: `common/auth.rs` is not among the provided
sources; the spec calls for constant-time string comparison, whose
functional behavior is string equality. -/
def constant_time_eq (a b : String) : Bool := a == b

/-- Walk of the entries performed by `ApiKeyStore::authenticate`. -/
def authFind (key : String) : List ApiKeyEntry → Option ApiKeyInfo
  | [] => none
  | e :: rest =>
    if !e.disabled && constant_time_eq key e.key then
      some ⟨e.id, e.label, e.readOnly, e.allowedModels⟩
    else authFind key rest

/-- `ApiKeyStore::authenticate`: first non-disabled entry whose key equals
the presented one, reduced to the `ApiKeyInfo` view. -/
def ApiKeyStore.authenticate (s : PersistedApiKeys) (key : String) : Option ApiKeyInfo :=
  authFind key s.entries

/-- Whitespace trimming of `str::trim`, modelled on both ends of the
character data (the examples in the claims are ASCII). -/
def rust_trim (s : String) : String :=
  ⟨((s.data.dropWhile Char.isWhitespace).reverse.dropWhile Char.isWhitespace).reverse⟩

/-- Field assignments of `ApiKeyStore::update` applied to the found entry:
a provided key is trimmed and ignored when empty, the remaining options
overwrite their fields when present. -/
def updateEntryFields (e : ApiKeyEntry) (key : Option String) (label : Option String)
    (readOnly : Option Bool) (allowedModels : Option (Option (List String)))
    (disabled : Option Bool) : ApiKeyEntry :=
  let e1 :=
    match key with
    | some k =>
      let k2 := rust_trim k
      if k2 = "" then e else { e with key := k2 }
    | none => e
  let e2 := match label with | some l => { e1 with label := l } | none => e1
  let e3 := match readOnly with | some r => { e2 with readOnly := r } | none => e2
  let e4 := match allowedModels with | some m => { e3 with allowedModels := m } | none => e3
  match disabled with | some d => { e4 with disabled := d } | none => e4

/-- In-place mutation through `iter_mut().find(..)`: rewrite the first
entry carrying the id, keep everything else. -/
def updateFirst (l : List ApiKeyEntry) (id : Nat) (f : ApiKeyEntry → ApiKeyEntry) :
    List ApiKeyEntry :=
  match l with
  | [] => []
  | e :: rest => if e.id = id then f e :: rest else e :: updateFirst rest id f

/-- `ApiKeyStore::update`: find the entry by id (error when absent) and
apply the requested field changes.  The error payload of the source is an
id-bearing message; its text is irrelevant to the claims. -/
def ApiKeyStore.update (s : PersistedApiKeys) (id : Nat) (key label : Option String)
    (readOnly : Option Bool) (allowedModels : Option (Option (List String)))
    (disabled : Option Bool) : Except String PersistedApiKeys :=
  if s.entries.any (fun e => e.id == id) then
    .ok { s with entries := (updateFirst s.entries id
      (fun e => updateEntryFields e key label readOnly allowedModels disabled)) }
  else
    .error "api key not found"

/-- `mask_key` over the raw characters of the key (the source slices byte
ranges of an ASCII key): keep the first six and last three characters
around a `***` infix, or the first `min 2 len` characters for short keys. -/
def mask_key (key : List Char) : List Char :=
  let len := key.length
  if len ≤ 9 then key.take (min 2 len) ++ "***".data
  else key.take 6 ++ "***".data ++ key.drop (len - 3)

/-! ### Store lemmas and claims -/

theorem authFind_eq_find (key : String) (l : List ApiKeyEntry) :
    authFind key l = (l.find? (fun e => !e.disabled && constant_time_eq key e.key)).map
      (fun e => ⟨e.id, e.label, e.readOnly, e.allowedModels⟩) := by
  induction l with
  | nil => rfl
  | cons e rest ih =>
    by_cases h : (!e.disabled && constant_time_eq key e.key) = true
    · simp [authFind, List.find?, h]
    · simp only [Bool.not_eq_true] at h
      simp [authFind, List.find?, h, ih]

/-- C4 counterexample: at a concrete one-entry store the authentication
view is exactly an id, label, read-only flag and model allow-list; the
`ApiKeyInfo` struct has no `bound_credential_ids` field, so the claimed
field inventory of the returned view is wrong for this code. -/
theorem c4_info_fields_counterexample :
    ApiKeyStore.authenticate ⟨2, [⟨1, "k1", "L", false, none, false, "t"⟩]⟩ "k1" =
      some ⟨1, "L", false, none⟩
    ∧ apiKeyInfoFields = ["id", "label", "read_only", "allowed_models"]
    ∧ "bound_credential_ids" ∉ apiKeyInfoFields := by
  refine ⟨by decide, rfl, by decide⟩

/-- C4 (amended).  `ApiKeyStore::authenticate` succeeds exactly when some
entry with `disabled = false` stores a key equal to the presented string,
returning the view of the first such entry; the view consists of only
`id`, `label`, `read_only` and `allowed_models`, never the key value. -/
theorem c4_authenticate_iff_and_view (s : PersistedApiKeys) (key : String) :
    ApiKeyStore.authenticate s key =
      (s.entries.find? (fun e => !e.disabled && constant_time_eq key e.key)).map
        (fun e => ⟨e.id, e.label, e.readOnly, e.allowedModels⟩)
    ∧ ((ApiKeyStore.authenticate s key).isSome ↔
        ∃ e ∈ s.entries, e.disabled = false ∧ e.key = key)
    ∧ "key" ∉ apiKeyInfoFields := by
  refine ⟨authFind_eq_find key s.entries, ?_, by decide⟩
  rw [ApiKeyStore.authenticate, authFind_eq_find key s.entries]
  simp only [Option.isSome_map']
  rw [List.find?_isSome]
  constructor
  · rintro ⟨e, he, hp⟩
    simp only [Bool.and_eq_true, Bool.not_eq_true', constant_time_eq, beq_iff_eq] at hp
    exact ⟨e, he, hp.1, hp.2.symm⟩
  · rintro ⟨e, he, hd, hk⟩
    refine ⟨e, he, ?_⟩
    simp [constant_time_eq, hd, hk]

/-- C5.  `mask_key` keeps the first six and the last three characters of
a key longer than nine characters around a `***` infix, and the first
`min 2 len` characters followed by `***` otherwise; in particular the two
documented examples hold. -/
theorem c5_mask_key_shape (key : List Char) :
    (9 < key.length →
      mask_key key = key.take 6 ++ "***".data ++ key.drop (key.length - 3))
    ∧ (key.length ≤ 9 → mask_key key = key.take (min 2 key.length) ++ "***".data)
    ∧ mask_key ("sk-abcdefghij".data) = "sk-abc***hij".data
    ∧ mask_key ("abc".data) = "ab***".data := by
  refine ⟨?_, ?_, by decide, by decide⟩
  · intro h
    simp only [mask_key]
    rw [if_neg (by omega)]
  · intro h
    simp only [mask_key]
    rw [if_pos h]

/-- Witness for C5: both shape clauses instantiated at concrete keys. -/
theorem c5_mask_key_shape_witness :
    mask_key ("0123456789".data) =
      ("0123456789".data).take 6 ++ "***".data ++
        ("0123456789".data).drop (("0123456789".data).length - 3)
    ∧ mask_key ("abc".data) = ("abc".data).take (min 2 ("abc".data).length) ++ "***".data :=
  ⟨(c5_mask_key_shape ("0123456789".data)).1 (by decide),
    (c5_mask_key_shape ("abc".data)).2.1 (by decide)⟩

theorem updateFirst_get_ne (id : Nat) (f : ApiKeyEntry → ApiKeyEntry) :
    ∀ (l : List ApiKeyEntry) (j : Nat), (∀ e, l.get? j = some e → e.id ≠ id) →
      (updateFirst l id f).get? j = l.get? j := by
  intro l
  induction l with
  | nil => intro j _; rfl
  | cons e rest ih =>
    intro j hj
    by_cases h : e.id = id
    · match j with
      | 0 => exact absurd h (hj e rfl)
      | j + 1 => simp [updateFirst, h]
    · match j with
      | 0 => simp [updateFirst, h]
      | j + 1 =>
        simp only [updateFirst, h, if_false]
        exact ih j (fun e2 he2 => hj e2 he2)

/-- C9.  An `update` whose key argument trims to the empty string behaves
exactly like an update without a key argument (the stored key is kept,
the other requested changes still apply); and any `update` call leaves
every position whose entry carries a different id unchanged. -/
theorem c9_update_empty_key_and_frame :
    (∀ (s : PersistedApiKeys) (id : Nat) (k : String) (label : Option String)
        (readOnly : Option Bool) (allowedModels : Option (Option (List String)))
        (disabled : Option Bool),
      rust_trim k = "" →
      ApiKeyStore.update s id (some k) label readOnly allowedModels disabled =
        ApiKeyStore.update s id none label readOnly allowedModels disabled)
    ∧ (∀ (s : PersistedApiKeys) (id : Nat) (key label : Option String)
        (readOnly : Option Bool) (allowedModels : Option (Option (List String)))
        (disabled : Option Bool) (s2 : PersistedApiKeys),
      ApiKeyStore.update s id key label readOnly allowedModels disabled = .ok s2 →
      ∀ j : Nat, (∀ e, s.entries.get? j = some e → e.id ≠ id) →
        s2.entries.get? j = s.entries.get? j) := by
  constructor
  · intro s id k label readOnly allowedModels disabled h
    have hf : (fun e => updateEntryFields e (some k) label readOnly allowedModels disabled) =
        (fun e => updateEntryFields e none label readOnly allowedModels disabled) :=
      funext fun e => by simp [updateEntryFields, h]
    simp only [ApiKeyStore.update, hf]
  · intro s id key label readOnly allowedModels disabled s2 hok j hj
    simp only [ApiKeyStore.update] at hok
    by_cases hany : s.entries.any (fun e => e.id == id) = true
    · rw [if_pos hany] at hok
      have hs2 : s2.entries = updateFirst s.entries id
          (fun e => updateEntryFields e key label readOnly allowedModels disabled) := by
        have := Except.ok.inj hok
        rw [← this]
      rw [hs2]
      exact updateFirst_get_ne id _ s.entries j hj
    · rw [if_neg hany] at hok
      exact absurd hok (by simp)

/-- Witness for C9: a two-entry store updated at id 1; the blank key is
ignored, and the entry at position 1 (id 2) is untouched. -/
theorem c9_update_empty_key_and_frame_witness :
    ApiKeyStore.update
        ⟨3, [⟨1, "ka", "A", false, none, false, "t"⟩,
          ⟨2, "kb", "B", false, none, false, "t"⟩]⟩ 1 (some " ") (some "L") none none none =
      ApiKeyStore.update
        ⟨3, [⟨1, "ka", "A", false, none, false, "t"⟩,
          ⟨2, "kb", "B", false, none, false, "t"⟩]⟩ 1 none (some "L") none none none
    ∧ (⟨3, [⟨1, "ka", "X", false, none, false, "t"⟩,
          ⟨2, "kb", "B", false, none, false, "t"⟩]⟩ : PersistedApiKeys).entries.get? 1 =
      (⟨3, [⟨1, "ka", "A", false, none, false, "t"⟩,
          ⟨2, "kb", "B", false, none, false, "t"⟩]⟩ : PersistedApiKeys).entries.get? 1 :=
  ⟨c9_update_empty_key_and_frame.1 _ 1 " " (some "L") none none none (by decide),
    c9_update_empty_key_and_frame.2 _ 1 none (some "X") none none none _ (by rfl) 1
      (by decide)⟩

/-! ### Sync client retry (src/sync/client.rs)

`retry_with_backoff` drives an async closure returning `Result<T>`;
the embedding abstracts the closure as a function from the attempt index
to its outcome and returns, besides the final result, the number of
attempts made and the list of sleeps performed.  The closures of
`get_changes`, `get_version` and `push_changes` turn every non-success
HTTP status into `Err` before the retry wrapper sees it; `attemptOnce`
is that classification. -/

/-- Failure of one attempt: transport error on send, non-success HTTP
status with the response text, or body parse failure. -/
inductive SyncError where
  | transport (msg : String)
  | http (status : Nat) (body : String)
  | parse (msg : String)
deriving DecidableEq, Repr

/-- Struct `RetryConfig`. -/
structure RetryConfig where
  maxRetries : Nat
  initialDelayMs : Nat
  exponentialBackoff : Bool
deriving DecidableEq, Repr

/-- The `Default` impl: 3 retries, 1000 ms initial delay, exponential. -/
def RetryConfig.default : RetryConfig := ⟨3, 1000, true⟩

/-- Outcome trace of the retry loop: final result, number of attempts
made, milliseconds slept between attempts. -/
structure RetryTrace (α : Type) where
  result : Except SyncError α
  attempts : Nat
  delaysMs : List Nat

/-- Loop body of `retry_with_backoff`: `attempt` is the current value of
the `retries` counter, `remaining` the retries still allowed.  On failure
with budget left the loop sleeps `initial * 2^(retries - 1)` milliseconds
after incrementing `retries`, which is `initial * 2^attempt`. -/
def retryGo {α : Type} (f : Nat → Except SyncError α) (cfg : RetryConfig) :
    Nat → Nat → RetryTrace α
  | attempt, remaining =>
    match f attempt, remaining with
    | .ok a, _ => ⟨.ok a, attempt + 1, []⟩
    | .error e, 0 => ⟨.error e, attempt + 1, []⟩
    | .error _, r + 1 =>
      let d := if cfg.exponentialBackoff then cfg.initialDelayMs * 2 ^ attempt
        else cfg.initialDelayMs
      let t := retryGo f cfg (attempt + 1) r
      ⟨t.result, t.attempts, d :: t.delaysMs⟩

/-- `retry_with_backoff`. -/
def retry_with_backoff {α : Type} (f : Nat → Except SyncError α) (cfg : RetryConfig) :
    RetryTrace α :=
  retryGo f cfg 0 cfg.maxRetries

/-- What the network hands one attempt: a transport failure, or a
response with its status, text, and parse outcome of the body. -/
inductive HttpOutcome (α : Type) where
  | transport (msg : String)
  | resp (status : Nat) (text : String) (parsed : Except String α)

/-- `StatusCode::is_success`: the 2xx range. -/
def is_success (status : Nat) : Bool := 200 ≤ status && status < 300

/-- One attempt of the `get_changes` (and sibling) closures: a transport
failure or any non-success status becomes `Err`; only a 2xx response is
parsed, and a parse failure is also `Err`. -/
def attemptOnce {α : Type} (o : HttpOutcome α) : Except SyncError α :=
  match o with
  | .transport m => .error (.transport m)
  | .resp status text parsed =>
    if is_success status then
      match parsed with
      | .ok v => .ok v
      | .error m => .error (.parse m)
    else .error (.http status text)

/-- Entity changes of one sync pull, struct `EntityChanges<T>`. -/
structure EntityChanges (α : Type) where
  updated : List α
  deleted : List Nat
deriving DecidableEq, Repr

/-- A synchronized credential record.  Of the many `TokenSync` and
`KiroCredentials` fields the claims compare only the identity and the
remaining content, abbreviated into one payload field. -/
structure TokenSyncRec where
  id : Nat
  payload : String
deriving DecidableEq, Repr

/-- Pull envelope, struct `SyncChangesResponse`.  The `token_usage`,
`token_subscriptions` and `token_bonuses` channels are elided: the claims
touch only `current_version` and the token changes. -/
structure SyncChangesResponse where
  currentVersion : Nat
  tokens : EntityChanges TokenSyncRec
deriving DecidableEq, Repr

/-- `SyncClient::get_changes` as seen through the retry wrapper: the
closure outcome of attempt `i` is `outcomes i`. -/
def get_changes (outcomes : Nat → HttpOutcome SyncChangesResponse) (cfg : RetryConfig) :
    RetryTrace SyncChangesResponse :=
  retry_with_backoff (fun i => attemptOnce (outcomes i)) cfg

/-- C2 counterexample: a constant HTTP 404 response is retried the full
three times with backoff 1 s, 2 s, 4 s and only then surfaced, instead of
being returned immediately without retries as claimed. -/
theorem c2_404_retried_counterexample :
    (get_changes (fun _ => .resp 404 "nf" (.error "no body")) RetryConfig.default).attempts = 4
    ∧ (get_changes (fun _ => .resp 404 "nf" (.error "no body"))
        RetryConfig.default).delaysMs = [1000, 2000, 4000]
    ∧ (get_changes (fun _ => .resp 404 "nf" (.error "no body"))
        RetryConfig.default).result = .error (.http 404 "nf")
    ∧ (4 : Nat) ≠ 1 := by
  refine ⟨rfl, ?_, rfl, by decide⟩
  show [1000 * 2 ^ 0, 1000 * 2 ^ 1, 1000 * 2 ^ 2] = [1000, 2000, 4000]
  norm_num

/-- C2 (amended).  With the default configuration the retry wrapper makes
at most four attempts; every attempt before the last one failed, whatever
the failure kind (transport, 4xx and 5xx alike); the sleeps are exactly
1 s, 2 s, 4 s doubling from the 1 s initial delay; the final result is the
outcome of the last attempt; and the loop stops early only on success. -/
theorem c2_retry_backoff_behavior {α : Type} (f : Nat → Except SyncError α) :
    (retry_with_backoff f RetryConfig.default).attempts ≤ 4
    ∧ 1 ≤ (retry_with_backoff f RetryConfig.default).attempts
    ∧ (retry_with_backoff f RetryConfig.default).delaysMs =
        (List.range ((retry_with_backoff f RetryConfig.default).attempts - 1)).map
          (fun k => 1000 * 2 ^ k)
    ∧ (retry_with_backoff f RetryConfig.default).result =
        f ((retry_with_backoff f RetryConfig.default).attempts - 1)
    ∧ (∀ k, k + 1 < (retry_with_backoff f RetryConfig.default).attempts →
        ∃ e, f k = .error e)
    ∧ ((retry_with_backoff f RetryConfig.default).attempts < 4 →
        ∃ a, (retry_with_backoff f RetryConfig.default).result = Except.ok a) := by
  have hrange1 : List.range 1 = [0] := rfl
  have hrange2 : List.range 2 = [0, 1] := rfl
  have hrange3 : List.range 3 = [0, 1, 2] := rfl
  rcases h0 : f 0 with e0 | a0
  · rcases h1 : f 1 with e1 | a1
    · rcases h2 : f 2 with e2 | a2
      · rcases h3 : f 3 with e3 | a3 <;>
          · simp [retry_with_backoff, retryGo, RetryConfig.default, h0, h1, h2, h3, hrange3]
            intro k hk
            have hk3 : k = 0 ∨ k = 1 ∨ k = 2 := by omega
            rcases hk3 with h | h | h <;> subst h
            · exact ⟨e0, h0⟩
            · exact ⟨e1, h1⟩
            · exact ⟨e2, h2⟩
      · simp [retry_with_backoff, retryGo, RetryConfig.default, h0, h1, h2, hrange2]
        intro k hk
        have hk2 : k = 0 ∨ k = 1 := by omega
        rcases hk2 with h | h <;> subst h
        · exact ⟨e0, h0⟩
        · exact ⟨e1, h1⟩
    · simp [retry_with_backoff, retryGo, RetryConfig.default, h0, h1, hrange1]
      intro k hk
      have hk1 : k = 0 := by omega
      subst hk1
      exact ⟨e0, h0⟩
  · simp [retry_with_backoff, retryGo, RetryConfig.default, h0]

/-- Witness for C2: under permanent 500 responses, attempt 0 indeed
failed; instantiates the failed-attempts clause of the theorem at k = 0. -/
theorem c2_retry_backoff_behavior_witness :
    ∃ e, attemptOnce ((fun _ => HttpOutcome.resp 500 "boom"
      (Except.error "no body" : Except String SyncChangesResponse)) 0) = .error e :=
  (c2_retry_backoff_behavior
    (fun i => attemptOnce ((fun _ => HttpOutcome.resp 500 "boom"
      (Except.error "no body" : Except String SyncChangesResponse)) i))).2.2.2.2.1 0
    (by decide)

/-! ### Sync manager pull step (src/sync/manager.rs)

`SyncManager::sync_now` and the pull half of the periodic loop body are
the same computation: read `last_sync_version`, call `get_changes`, and
on success store the returned `current_version`.  The envelope contents
are not applied to the local credential pool (an explicit TODO in both
places).  The embedding carries the manager state the pull step can
touch and takes the already-resolved pull result as input. -/

/-- Manager state the pull step reads and writes: the last synced
version and the local credential pool. -/
structure SyncState where
  lastSyncVersion : Nat
  credentials : List TokenSyncRec
deriving DecidableEq, Repr

/-- `SyncManager::sync_now` (and the pull half of one periodic
iteration): on a successful pull only `last_sync_version` is updated. -/
def sync_now (st : SyncState) (pull : Except SyncError SyncChangesResponse) :
    Except SyncError SyncState :=
  match pull with
  | .error e => .error e
  | .ok changes => .ok { st with lastSyncVersion := changes.currentVersion }

/-- Modelled from the spec: applying a pull envelope to the local pool
means upserting every updated record by id and removing every deleted
id. -/
def apply_changes_spec (pool : List TokenSyncRec) (changes : SyncChangesResponse) :
    List TokenSyncRec :=
  let upserted := changes.tokens.updated.foldl
    (fun p u =>
      if p.any (fun c => c.id == u.id) then p.map (fun c => if c.id == u.id then u else c)
      else p ++ [u])
    pool
  upserted.filter (fun c => !(changes.tokens.deleted.contains c.id))

/-- C3 counterexample: a successful pull whose envelope deletes the only
pooled credential leaves the pool untouched, while applying the envelope
as the claim states would empty it. -/
theorem c3_pull_not_applied_counterexample :
    sync_now ⟨0, [⟨1, "old"⟩]⟩ (.ok ⟨5, ⟨[], [1]⟩⟩) = .ok ⟨5, [⟨1, "old"⟩]⟩
    ∧ apply_changes_spec [⟨1, "old"⟩] ⟨5, ⟨[], [1]⟩⟩ = []
    ∧ ([⟨1, "old"⟩] : List TokenSyncRec) ≠ [] := by
  refine ⟨rfl, by decide, by decide⟩

/-- C3 (amended).  Whenever the pull succeeds, `last_sync_version` is set
to the returned `current_version`, the local credential pool is left
unchanged (applying the envelope is an explicit TODO in the source), and
a failed pull changes nothing and surfaces the error. -/
theorem c3_sync_now_bumps_version_only (st : SyncState) (env : SyncChangesResponse)
    (e : SyncError) :
    sync_now st (.ok env) = .ok ⟨env.currentVersion, st.credentials⟩
    ∧ sync_now st (.error e) = .error e := ⟨rfl, rfl⟩

/-! ### Socket reconnect backoff (src/sync/socketio_client.rs)

`connect_and_register_with_retry` loops forever: each iteration attempts
one connection (`connect_once`), then sleeps `retry_delay` seconds.  On
`Ok` (the connection was established and later dropped) `retry_delay` is
reset to one second before the sleep; on `Err` it is doubled and capped
at thirty seconds before the sleep.  The embedding maps the sequence of
attempt outcomes (`true` = established then dropped, `false` = failed)
to the seconds slept after each attempt. -/

/-- Delay used after one attempt, given the delay in force before it. -/
def socketStep (delay : Nat) (ok : Bool) : Nat := if ok then 1 else min (2 * delay) 30

/-- Sleeps performed after each attempt, starting from `delay`. -/
def socketDelaysGo (delay : Nat) : List Bool → List Nat
  | [] => []
  | ok :: rest => socketStep delay ok :: socketDelaysGo (socketStep delay ok) rest

/-- Sleeps of the reconnect loop, which starts with `retry_delay` = 1 s. -/
def reconnect_delays (outcomes : List Bool) : List Nat := socketDelaysGo 1 outcomes

theorem socketDelaysGo_bounds :
    ∀ (l : List Bool) (delay : Nat), 1 ≤ delay →
      ∀ d ∈ socketDelaysGo delay l, 1 ≤ d ∧ d ≤ 30 := by
  intro l
  induction l with
  | nil => intro delay _ d hd; simp [socketDelaysGo] at hd
  | cons ok rest ih =>
    intro delay hdelay d hd
    have hstep : 1 ≤ socketStep delay ok ∧ socketStep delay ok ≤ 30 := by
      rcases ok with _ | _
      · simp only [socketStep, if_false, Bool.false_eq_true]
        omega
      · simp [socketStep]
    rcases List.mem_cons.mp hd with h | h
    · rw [h]; exact hstep
    · exact ih (socketStep delay ok) hstep.1 d h

theorem socketDelaysGo_chain :
    ∀ (l : List Bool) (delay : Nat) (i : Nat) (ok : Bool), l.get? (i + 1) = some ok →
      ∃ d, (socketDelaysGo delay l).get? i = some d ∧
        (socketDelaysGo delay l).get? (i + 1) = some (socketStep d ok) := by
  intro l
  induction l with
  | nil => intro delay i ok h; simp at h
  | cons x xs ih =>
    intro delay i ok h
    match i with
    | 0 =>
      refine ⟨socketStep delay x, rfl, ?_⟩
      match xs, h with
      | y :: ys, h =>
        have hy : y = ok := by simpa using h
        subst hy
        rfl
    | i + 1 =>
      have h2 : xs.get? (i + 1) = some ok := by simpa using h
      exact ih (socketStep delay x) i ok h2

/-- C8 counterexample: after the very first failed attempt the loop
sleeps two seconds, not one; the doubling is applied before the first
wait. -/
theorem c8_first_delay_counterexample :
    reconnect_delays [false] = [2] ∧ (2 : Nat) ≠ 1 := ⟨rfl, by decide⟩

/-- C8 (amended).  Every sleep of the reconnect loop lies between 1 s and
the 30 s cap; the sleep after the first attempt is `socketStep 1`, so a
first failure waits 2 s; after any later outcome the sleep is obtained
from the previous one by `socketStep`, doubling-and-capping on failure;
and a successful connection resets the delay to 1 s. -/
theorem c8_reconnect_backoff (outcomes : List Bool) :
    (∀ d ∈ reconnect_delays outcomes, 1 ≤ d ∧ d ≤ 30)
    ∧ (∀ ok rest, outcomes = ok :: rest →
        (reconnect_delays outcomes).head? = some (socketStep 1 ok))
    ∧ (∀ i ok, outcomes.get? (i + 1) = some ok →
        ∃ d, (reconnect_delays outcomes).get? i = some d ∧
          (reconnect_delays outcomes).get? (i + 1) = some (socketStep d ok))
    ∧ (∀ d, socketStep d true = 1)
    ∧ (∀ d, socketStep d false = min (2 * d) 30) := by
  refine ⟨socketDelaysGo_bounds outcomes 1 (by omega), ?_, ?_, fun d => rfl, fun d => rfl⟩
  · intro ok rest h
    subst h
    rfl
  · intro i ok h
    exact socketDelaysGo_chain outcomes 1 i ok h

/-- Witness for C8: two consecutive failures; the first sleep is 2 s and
the second is obtained by the doubling step. -/
theorem c8_reconnect_backoff_witness :
    (reconnect_delays [false, false]).head? = some (socketStep 1 false)
    ∧ ∃ d, (reconnect_delays [false, false]).get? 0 = some d ∧
        (reconnect_delays [false, false]).get? 1 = some (socketStep d false) :=
  ⟨(c8_reconnect_backoff [false, false]).2.1 false [false] rfl,
    (c8_reconnect_backoff [false, false]).2.2.1 0 false rfl⟩

/-! ### Context-usage token derivation (src/user_api/handlers.rs)

When the upstream supplies no explicit count, `input_tokens` is computed
as `(ctx.context_usage_percentage * 200_000.0 / 100.0) as i32`.  The
expression is modelled over exact rational arithmetic; at every dyadic
percentage whose products stay well inside the double precision range
(such as the counterexample value 3/64) the f64 computation is exact, so
the rational model coincides with the code. -/

/-- The product `context_usage_percentage * 200_000.0 / 100.0`. -/
def context_tokens_exact (p : ℚ) : ℚ := p * 200000 / 100

/-- Rust `as i32` on a float value: truncation toward zero, saturating at
the i32 bounds. -/
def f64_as_i32 (q : ℚ) : Int :=
  if q < -2147483648 then -2147483648
  else if 2147483647 < q then 2147483647
  else if q < 0 then -⌊-q⌋ else ⌊q⌋

/-- The derived `input_tokens` value of a `ContextUsage` event. -/
def derive_input_tokens (p : ℚ) : Int := f64_as_i32 (context_tokens_exact p)

/-- Modelled from the spec: rounding to the nearest integer, halves away
from zero, as `f64::round` behaves. -/
def round_spec (q : ℚ) : Int := if q < 0 then -⌊-q + 1 / 2⌋ else ⌊q + 1 / 2⌋

/-- C6 counterexample: at `context_usage_percentage = 0.046875` (3/64,
exactly representable in f64) the product is 93.75; the code truncates to
93 while the claimed rounding yields 94. -/
theorem c6_truncation_counterexample :
    derive_input_tokens (3 / 64) = 93
    ∧ round_spec (context_tokens_exact (3 / 64)) = 94
    ∧ (93 : Int) ≠ 94 := by
  refine ⟨?_, ?_, by decide⟩
  · rw [derive_input_tokens, f64_as_i32, context_tokens_exact]
    rw [if_neg (by norm_num), if_neg (by norm_num), if_neg (by norm_num)]
    norm_num
  · rw [round_spec, context_tokens_exact, if_neg (by norm_num)]
    norm_num

/-- C6 (amended).  For every percentage in the physical range [0, 100]
the derived `input_tokens` equals the floor (truncation toward zero) of
`percentage / 100 * 200000`, hence lies within one unit below the exact
product, rather than the nearest integer. -/
theorem c6_derive_truncates (p : ℚ) (h0 : 0 ≤ p) (h100 : p ≤ 100) :
    derive_input_tokens p = ⌊context_tokens_exact p⌋
    ∧ context_tokens_exact p - 1 < (derive_input_tokens p : ℚ)
    ∧ (derive_input_tokens p : ℚ) ≤ context_tokens_exact p := by
  have hv : context_tokens_exact p = p * 2000 := by
    rw [context_tokens_exact]; ring
  have hge : (0 : ℚ) ≤ context_tokens_exact p := by
    rw [hv]; positivity
  have hle : context_tokens_exact p ≤ 200000 := by
    rw [hv]; nlinarith
  have heq : derive_input_tokens p = ⌊context_tokens_exact p⌋ := by
    rw [derive_input_tokens, f64_as_i32]
    rw [if_neg (by linarith), if_neg (by linarith), if_neg (by linarith)]
  refine ⟨heq, ?_, ?_⟩
  · rw [heq]; exact Int.sub_one_lt_floor _
  · rw [heq]; exact Int.floor_le _

/-- Witness for C6: the amended statement instantiated at 3/64. -/
theorem c6_derive_truncates_witness :
    derive_input_tokens (3 / 64) = ⌊context_tokens_exact (3 / 64)⌋
    ∧ context_tokens_exact (3 / 64) - 1 < (derive_input_tokens (3 / 64) : ℚ)
    ∧ (derive_input_tokens (3 / 64) : ℚ) ≤ context_tokens_exact (3 / 64) :=
  c6_derive_truncates (3 / 64) (by norm_num) (by norm_num)

end KiroSpec
